import Mathlib

/-!
Verification of the header-normalization pipeline of
`scripts/build-db-from-ietf-ma.py`.

Python strings are embedded as `List Char`; each Python string method used
by the script is reproduced as an executable Lean function (`pyLower`,
`pyStrip`, `pyReplace`, ...) with Python's semantics on the ASCII inputs the
script processes.  The functions of the script (`fix_name`, `fix_addr`,
`header_reader`, `parse_hdr_from`, `parse_hdr_to_cc`, `parse_hdr_date`, and
the per-folder aggregation loop of `__main__`) are translated line by line.
-/

namespace IetfMa

abbrev Str := List Char

def str (s : String) : Str := s.data

/-- Python `str.lower()`, restricted to the ASCII case mapping (the corpus
headers handled by the claims are ASCII). -/
def pyLower (s : Str) : Str := s.map Char.toLower

/-- Python `str.lstrip(cs)`: remove every leading character contained in `cs`. -/
def pyLstrip (cs : Str) : Str → Str
  | [] => []
  | c :: r => if c ∈ cs then pyLstrip cs r else c :: r

/-- Python `str.rstrip(cs)`. -/
def pyRstrip (cs : Str) (s : Str) : Str := (pyLstrip cs s.reverse).reverse

/-- Python `str.strip(cs)`. -/
def pyStrip (cs : Str) (s : Str) : Str := pyRstrip cs (pyLstrip cs s)

/-- Python `str.startswith(p)`. -/
def pyStartsWith (s p : Str) : Bool := p.isPrefixOf s

/-- Python `str.endswith(p)`. -/
def pyEndsWith (s p : Str) : Bool := p.isSuffixOf s

def pyContainsAux (pat : Str) : Str → Bool
  | [] => pat.isEmpty
  | c :: r => pat.isPrefixOf (c :: r) || pyContainsAux pat r

/-- Python `pat in s` (substring test). -/
def pyContains (s pat : Str) : Bool := pyContainsAux pat s

def pyFindAux (pat : Str) : Str → Nat → Option Nat
  | [], i => if pat.isEmpty then some i else none
  | c :: r, i => if pat.isPrefixOf (c :: r) then some i else pyFindAux pat r (i + 1)

/-- Python `s.find(pat)`, as `none` instead of `-1` when absent. -/
def pyFind (s pat : Str) : Option Nat := pyFindAux pat s 0

/-- Worker for `pyReplace`; the fuel is an upper bound on the number of steps
and is always called with at least the length of the scanned string, so it
never runs out. -/
def pyReplaceF (pat rep : Str) : Nat → Str → Str
  | 0, s => s
  | _ + 1, [] => []
  | f + 1, c :: rest =>
    if pat ≠ [] ∧ pat.isPrefixOf (c :: rest) then
      rep ++ pyReplaceF pat rep f (List.drop (pat.length - 1) rest)
    else
      c :: pyReplaceF pat rep f rest

/-- Python `s.replace(pat, rep)`: left-to-right, non-overlapping.  The script
never calls `replace` with an empty pattern. -/
def pyReplace (s pat rep : Str) : Str := pyReplaceF pat rep s.length s

/-- Python `s.split(sep)` for a one-character separator (keeps empty fields). -/
def pySplitChar (sep : Char) : Str → List Str
  | [] => [[]]
  | c :: r =>
    match pySplitChar sep r with
    | [] => [[c]]
    | p :: pt => if c = sep then [] :: p :: pt else (c :: p) :: pt

/-- Python `s[:-n]` for `n ≥ 1` (empty result when `n ≥ len(s)`). -/
def pyCutLast (s : Str) (n : Nat) : Str := s.take (s.length - n)

/-- Python's default `str.strip()` whitespace set. -/
def wsChars : Str := [' ', Char.ofNat 9, Char.ofNat 10, Char.ofNat 13, Char.ofNat 11, Char.ofNat 12]

/-- Python `str.strip()` with no argument. -/
def pyStripWs (s : Str) : Str := pyStrip wsChars s

def quoteCh : Char := Char.ofNat 34
def aposCh : Char := Char.ofNat 39

-- ===========================================================================
-- fix_name (script lines 168-182)

def nameStripChars : Str := [aposCh, quoteCh, ' ']

def viaDatatracker : Str := str " via Datatracker"

/-- `fix_name` of the script: strip surrounding apostrophe/quote/space
characters, drop a trailing " via Datatracker" (16 characters), fold the
empty result to `None`. -/
def fix_name : Option Str → Option Str
  | none => none
  | some old_name =>
    let name := pyStrip nameStripChars old_name
    let name := if pyEndsWith name viaDatatracker then pyCutLast name 16 else name
    if name = [] then none else some name

-- ===========================================================================
-- fix_addr (script lines 186-234)

def dmarcDomain : Str := str "@dmarc.ietf.org"
def eq40 : Str := str "=40"
def atSign : Str := str "@"
def atObfuscation : Str := str " at "
def leadJunk : Str := [quoteCh, aposCh, '<']
def trailJunk : Str := [quoteCh, aposCh, '>']
def removeThisWord : Str := str ".RemoveThisWord"
def onBehalfOf : Str := str " on behalf of "

/-- Model of the Python standard-library function `email.utils.parseaddr`
(not part of this repository): extract an angle-bracketed address if one is
present, otherwise treat the whole string as the address.  `fix_addr` calls
it only inside its double-`@` branch, and no theorem below depends on the
value this model returns there. -/
def parseaddrModel (s : Str) : Str × Str :=
  match pyFind s (str "<"), pyFind s (str ">") with
  | some i, some j =>
    if i < j then (pyStripWs (s.take i), (s.drop (i + 1)).take (j - i - 1))
    else ([], [])
  | _, _ => ([], pyStripWs s)

/-- Step of `fix_addr`: if the address ends with "@dmarc.ietf.org", drop that
15-character suffix and decode "=40" escapes to "@". -/
def addrDmarc (addr : Str) : Str :=
  if pyEndsWith addr dmarcDomain then pyReplace (pyCutLast addr 15) eq40 atSign else addr

/-- Step of `fix_addr`: collapse `"local@mid"@right` shapes with exactly two
`@` signs by re-parsing the quoted part as a nested mailbox.  (The script
also binds the unused third component `rpart`.) -/
def addrCollapse (addr : Str) : Str :=
  if addr.count '@' = 2 then
    let parts := pySplitChar '@' addr
    let lpart := parts.getD 0 []
    let cpart := parts.getD 1 []
    if pyStartsWith lpart [quoteCh] ∧ pyEndsWith cpart [quoteCh] then
      let lcomb := lpart ++ atSign ++ cpart
      let lcomb :=
        if pyStartsWith lcomb [aposCh] ∧ pyEndsWith lcomb [aposCh] then
          (lcomb.drop 1).dropLast
        else lcomb
      let lcomb :=
        if pyStartsWith lcomb [quoteCh] ∧ pyEndsWith lcomb [quoteCh] then
          (lcomb.drop 1).dropLast
        else lcomb
      let laddr := (parseaddrModel lcomb).2
      if laddr ≠ [] then laddr else addr
    else addr
  else addr

/-- Step of `fix_addr`: rewrite " at " obfuscation to "@" (the script applies
the replacement whenever " at " occurs, with no test for an existing "@"). -/
def addrAt (addr : Str) : Str :=
  if pyContains addr atObfuscation then pyReplace addr atObfuscation atSign else addr

/-- Step of `fix_addr`: `addr.lstrip("\x22'<").rstrip("\x22'>")`. -/
def addrStripJunk (addr : Str) : Str := pyRstrip trailJunk (pyLstrip leadJunk addr)

/-- Step of `fix_addr`: strip a trailing ".RemoveThisWord" (15 characters). -/
def addrRemoveWord (addr : Str) : Str :=
  if pyEndsWith addr removeThisWord then pyCutLast addr 15 else addr

/-- Step of `fix_addr`: truncate at a " on behalf of " marker. -/
def addrBehalf (addr : Str) : Str :=
  if pyContains addr onBehalfOf then addr.take ((pyFind addr onBehalfOf).getD addr.length) else addr

/-- The body of `fix_addr` before its final empty test and trim. -/
def fixAddrCore (a : Str) : Str :=
  addrBehalf (addrRemoveWord (addrStripJunk (addrAt (addrCollapse (addrDmarc (pyLower a))))))

/-- `fix_addr` of the script (lines 186-234). -/
def fix_addr : Option Str → Option Str
  | none => none
  | some old_addr =>
    let addr := fixAddrCore old_addr
    if addr = [] then none else some (pyStripWs addr)

-- ===========================================================================
-- A small backtracking regular-expression engine for Python `re.sub`, covering
-- the constructs used by the pattern table of `header_reader`: literals,
-- character classes, ".", "$", capturing groups, "*", "+", "?".

inductive RE where
  | eps
  | ch (c : Char)
  | cls (ranges : List (Char × Char)) (neg : Bool)
  | dot
  | eol
  | seq (a b : RE)
  | star (r : RE)
  | opt (r : RE)
  | grp (n : Nat) (r : RE)

abbrev Caps := List (Nat × Nat × Nat)

def clsMem (ranges : List (Char × Char)) (c : Char) : Bool :=
  ranges.any fun p => decide (p.1 ≤ c) && decide (c ≤ p.2)

/-- Backtracking matcher in continuation-passing style; greedy quantifiers,
`$` matching at the end of the input or before a final newline, captures
recording the last iteration (Python semantics).  The fuel bounds the
recursion depth and is always supplied large enough never to run out on the
concrete header values evaluated below. -/
def reMatch : Nat → RE → Str → Nat → Caps →
    (Str → Nat → Caps → Option (Nat × Caps)) → Option (Nat × Caps)
  | 0, _, _, _, _, _ => none
  | f + 1, re, s, pos, caps, k =>
    match re with
    | .eps => k s pos caps
    | .ch c =>
      match s with
      | [] => none
      | a :: r => if a = c then k r (pos + 1) caps else none
    | .cls ranges neg =>
      match s with
      | [] => none
      | a :: r => if clsMem ranges a ≠ neg then k r (pos + 1) caps else none
    | .dot =>
      match s with
      | [] => none
      | a :: r => if a = Char.ofNat 10 then none else k r (pos + 1) caps
    | .eol =>
      if s = [] ∨ s = [Char.ofNat 10] then k s pos caps else none
    | .seq a b => reMatch f a s pos caps fun s2 p2 c2 => reMatch f b s2 p2 c2 k
    | .star r =>
      match reMatch f r s pos caps
          (fun s2 p2 c2 => if pos < p2 then reMatch f (.star r) s2 p2 c2 k else none) with
      | some res => some res
      | none => k s pos caps
    | .opt r =>
      match reMatch f r s pos caps k with
      | some res => some res
      | none => k s pos caps
    | .grp n r => reMatch f r s pos caps fun s2 p2 c2 => k s2 p2 ((n, pos, p2) :: c2)

def reFuel : Nat := 100000

def reMatchAt (re : RE) (orig : Str) (pos : Nat) : Option (Nat × Caps) :=
  reMatch reFuel re (orig.drop pos) pos [] fun _ p c => some (p, c)

inductive TplItem where
  | txt (s : Str)
  | ref (n : Nat)

def capLookup : Caps → Nat → Option (Nat × Nat)
  | [], _ => none
  | (m, a, b) :: r, n => if m = n then some (a, b) else capLookup r n

/-- Expand a replacement template; a group that did not participate in the
match expands to the empty string (Python `re.sub` semantics). -/
def expandTpl (orig : Str) (caps : Caps) : List TplItem → Str
  | [] => []
  | .txt s :: r => s ++ expandTpl orig caps r
  | .ref n :: r =>
    (match capLookup caps n with
     | some (a, b) => (orig.drop a).take (b - a)
     | none => []) ++ expandTpl orig caps r

/-- Scan for `re.sub`: leftmost match, replace, continue after it; an empty
match emits the replacement and copies one character. -/
def reSubScan (re : RE) (tpl : List TplItem) (orig : Str) : Nat → Nat → Str
  | 0, _ => []
  | f + 1, pos =>
    match reMatchAt re orig pos with
    | some (endp, caps) =>
      let rep := expandTpl orig caps tpl
      if pos < endp then rep ++ reSubScan re tpl orig f endp
      else
        rep ++ (match orig.drop pos with
                | [] => []
                | c :: _ => c :: reSubScan re tpl orig f (pos + 1))
    | none =>
      match orig.drop pos with
      | [] => []
      | c :: _ => c :: reSubScan re tpl orig f (pos + 1)

/-- Python `re.sub(re, tpl, s)`. -/
def reSub (re : RE) (tpl : List TplItem) (s : Str) : Str :=
  reSubScan re tpl s (s.length + 2) 0

-- Builders used to transcribe the patterns.

def reCat (l : List RE) : RE := l.foldr .seq .eps

/-- A pattern fragment in which the only regex metacharacter is ".". -/
def patOf (s : String) : RE :=
  reCat (s.data.map fun c => if c = '.' then RE.dot else RE.ch c)

/-- Character class from ranges plus the single characters of a string. -/
def cl (ranges : List (Char × Char)) (s : String) : RE :=
  .cls (ranges ++ s.data.map fun c => (c, c)) false

def clsOf (s : String) : RE := cl [] s

def plusR (r : RE) : RE := .seq r (.star r)

def tIetf : List TplItem := [.txt (str "ietf-announce@ietf.org")]
def tUndisc : List TplItem := [.txt (str "undisclosed-recipients: ;")]

-- ===========================================================================
-- header_reader (script lines 308-365)

/-- The ordered pattern table of `header_reader` (script lines 315-357),
each Python regular expression transcribed to the engine's syntax with the
original capture-group numbering. -/
def patterns_to_replace : List (RE × List TplItem) :=
  [ (reCat [.grp 1 (reCat [patOf "\"IETF-Announce:; ; ; ; ; @tis.com\"@tis.com",
        plusR (clsOf "; "), patOf " , "]), .grp 2 (.star .dot)],
     [.txt (str "ietf-announce@ietf.org, "), .ref 2]),
    (reCat [.grp 1 (.star .dot), .grp 2 (reCat [patOf "IETF-Announce:",
        plusR (clsOf " ;,"), plusR (cl [('a', 'z'), ('A', 'Z')] ".@:;-"), .eol])],
     [.ref 1, .txt (str "ietf-announce@ietf.org")]),
    (reCat [.grp 1 (.star .dot), .grp 2 (reCat [patOf "IETF-Announce:",
        plusR (.grp 3 (patOf "; ")), plusR (cl [('a', 'z')] "; .@\r\n")])],
     [.ref 1, .txt (str "ietf-announce@ietf.org")]),
    (reCat [.grp 1 (.star .dot),
        .grp 2 (reCat [.ch '<', .opt (.ch quoteCh), patOf "IETF-Announce:", .opt (.ch quoteCh)]),
        .opt (.grp 3 (plusR (cl [('a', 'z'), ('0', '9')] ".@;\""))),
        .grp 4 (.ch '>'),
        .opt (.grp 5 (patOf ", @tislabs.com@tislabs.com")),
        .grp 6 (.star .dot)],
     [.ref 1, .txt (str "<ietf-announce@ietf.org>"), .ref 6]),
    (patOf "IETF-Announce: ;, tis.com@CNRI.Reston.VA.US, tis.com@magellan.tis.com", tIetf),
    (patOf "IETF-Announce: ;, \"localhost.MIT.EDU\": cclark@ietf.org;", tIetf),
    (patOf "IETF-Announce: @IETF.CNRI.Reston.VA.US:;, IETF.CNRI.Reston.VA.US@isi.edu", tIetf),
    (patOf "IETF-Announce <IETF-Announce:@auemlsrv.firewall.lucent.com;>", tIetf),
    (patOf "IETF-Announce: ;,  \"CNRI.Reston.VA.US\" <@sun.com:CNRI.Reston.VA.US@eng.sun.com>", tIetf),
    (patOf "IETF-Announce: ;,  \"neptune.tis.com\" <@tis.com, @baynetworks.com:neptune.tis.com@baynetworks.com>, tis.com@tis.com", tIetf),
    (patOf "IETF-Announce: \"IETF-Announce:;@IETF.CNRI.Reston.VA.US@PacBell.COM\" <>;,  IETF.CNRI.Reston.VA.US@pacbell.com", tIetf),
    (patOf "IETF-Announce: %IETF.CNRI.Reston.VA.US@tgv.com;", tIetf),
    (reCat [.grp 1 (patOf "IETF-Announce: ; ; ; , "),
        plusR (.grp 2 (reCat [patOf "@pa.dec.com", plusR (clsOf " ;,")]))], tIetf),
    (patOf "IETF-Announce:;;;@gis.net;", tIetf),
    (patOf "IETF-Announce:;;@gis.net", tIetf),
    (patOf "IETF-Announce:@ietf.org, ;;;@ietf.org;", tIetf),
    (patOf "IETF-Announce:@cisco.com, \";\"@cisco.com", tIetf),
    (patOf "IETF-Announce:, \";\"@cisco.com", tIetf),
    (patOf "IETF-Announce:@cisco.com", tIetf),
    (patOf "\"IETF-Announce:\"@netcentrex.net", tIetf),
    (patOf "IETF-Announce:@above.proper.com", tIetf),
    (patOf "IETF-Announce:all-ietf@ietf.org", tIetf),
    (patOf "i IETF-Announce: ;", tIetf),
    (patOf "IETF-Announce: ;", tIetf),
    (patOf "IETF-Announce:;", tIetf),
    (patOf "IETF-Announce:", tIetf),
    (reCat [.grp 1 (reCat [.opt (.ch quoteCh), .cls [('U', 'U'), ('u', 'u')] false,
        patOf "ndisclosed", .dot, patOf "recipients", .opt (.ch quoteCh),
        patOf ": ", plusR (.ch ';')]),
        .opt (.grp 2 (reCat [patOf ", @", plusR (cl [('a', 'z')] ".")])),
        .grp 3 (.star .dot)],
     [.txt (str "undisclosed-recipients: ;"), .ref 3]),
    (reCat [.grp 1 (.star .dot),
        .grp 2 (patOf "unlisted-recipients:; (no To-header on input)"),
        .grp 3 (.star .dot)],
     [.ref 1, .txt (str "undisclosed-recipients: ;"), .ref 3]),
    (reCat [.grp 1 (.star .dot),
        .grp 2 (patOf "random-recipients:;;;@cs.utk.edu; (info-mime and ietf-822 lists)"),
        .grp 3 (.star .dot)],
     [.ref 1, .txt (str "undisclosed-recipients: ;"), .ref 3]),
    (reCat [.grp 1 (.star .dot),
        .grp 2 (reCat [.ch quoteCh, plusR (cl [('A', 'Z'), ('a', 'z')] "."),
          .ch quoteCh, .ch ':', plusR (.ch ';'), patOf "@tislabs.com;;;"]),
        .grp 3 (.star .dot)],
     [.ref 1, .txt (str "undisclosed-recipients: ;"), .ref 3]),
    (patOf "undisclosed-recipients:;;:;", tUndisc),
    (reCat [.opt (.grp 1 (patOf "moore@cs.utk.edu")), .opt (.grp 2 (patOf ", ")),
        .grp 3 (reCat [patOf "authors:", plusR (.ch ';'), patOf "@cs.utk.edu", plusR (.ch ';')]),
        .grp 4 (.star .dot)],
     [.ref 1, .ref 4]),
    (.grp 1 (patOf "RFC 3023 authors: ;"),
     [.txt (str "mmurata@trl.ibm.co.jp, simonstl@simonstl.com, dan@dankohn.com")]),
    (patOf "=?ISO-8859-1?B?QWJhcmJhbmVsLA0KICAgIEJlbmphbWlu?=",
     [.txt (str "Benjamin Abarbanel")]),
    (patOf "=?ISO-8859-15?B?UGV0ZXJzb24sDQogICAgSm9u?=",
     [.txt (str "Jon Peterson")]) ]

/-- Python `sourcelines[0].split(":", 1)`; `none` models the unpacking
ValueError when the line holds no colon. -/
def splitHeaderLine (l : Str) : Option (Str × Str) :=
  match pyFind l (str ":") with
  | none => none
  | some i => some (l.take i, l.drop (i + 1))

/-- The first-match-wins loop over the pattern table (script lines 358-363):
apply each substitution in order and stop at the first one that changes the
value. -/
def applyFirstPattern : List (RE × List TplItem) → Str → Str
  | [], value => value
  | (p, t) :: ps, value =>
    let new_value := reSub p t value
    if new_value ≠ value then new_value else applyFirstPattern ps value

/-- `header_reader` of the script (lines 308-365): unfold the header, and for
a To or Cc header run the repair pattern table; other header names pass
through unchanged.  `none` models the faults of an empty `sourcelines` or a
first line without a colon, which the mail parser never feeds it. -/
def header_reader (sourcelines : List Str) : Option (Str × Str) :=
  match sourcelines with
  | [] => none
  | line0 :: rest =>
    match splitHeaderLine line0 with
    | none => none
    | some (name, v0) =>
      let value := pyLstrip (str " \t\r\n") (v0 ++ rest.flatten)
      let value := pyRstrip (str "\r\n") value
      if pyLower name = str "to" ∨ pyLower name = str "cc" then
        let value := pyReplace value (str "\r\n") []
        some (name, applyFirstPattern patterns_to_replace value)
      else
        some (name, value)

-- ===========================================================================
-- parse_hdr_from (script lines 368-407)

/-- Model of one parsed address of the Python email header registry
(`email.headerregistry.Address`): display name, full addr-spec, and the
domain part inspected by `parse_hdr_from`. -/
structure PyAddress where
  display_name : Str
  addr_spec : Str
  domain : Str

/-- Model of `email.headerregistry.Group`: standalone addresses appear as
single-address groups, group syntax as one group holding its members. -/
structure PyGroup where
  addresses : List PyAddress

/-- Model of the structured value of a From header (`msg["from"]`): its
group list.  `getaddresses([hdr])` flattens the same addresses. -/
structure FromHeaderVal where
  groups : List PyGroup

/-- Model of `email.utils.getaddresses([hdr])` on the structured header:
the (display_name, addr_spec) pairs of all groups in order. -/
def getaddressesOf (hdr : FromHeaderVal) : List (Str × Str) :=
  ((hdr.groups.map PyGroup.addresses).flatten).map fun a => (a.display_name, a.addr_spec)

/-- The group scan of `parse_hdr_from` for a multi-address header (script
lines 386-395): skip empty groups, break at the first single-address group
whose domain contains a ".", raise on a group with several addresses. -/
def scanGroups : List PyGroup → Except Str (Option Str × Option Str)
  | [] => .ok (none, none)
  | g :: gs =>
    match g.addresses with
    | [] => scanGroups gs
    | [a] =>
      if pyContains a.domain (str ".") then .ok (some a.display_name, some a.addr_spec)
      else scanGroups gs
    | _ => .error (str "Cannot parse From header - multiple addresses in group")

/-- The final `""` to `None` folding of `parse_hdr_from` (lines 401-405). -/
def foldEmpty : Option Str → Option Str
  | some [] => none
  | x => x

/-- `parse_hdr_from` of the script (lines 368-407); the `Except` error models
the `raise RuntimeError`. -/
def parse_hdr_from (hdr? : Option FromHeaderVal) : Except Str (Option Str × Option Str) :=
  match hdr? with
  | none => .ok (none, none)
  | some hdr =>
    match getaddressesOf hdr with
    | [] => .ok (none, none)
    | [(n, a)] => .ok (foldEmpty (some n), foldEmpty (some a))
    | _ :: _ :: _ =>
      match scanGroups hdr.groups with
      | .error e => .error e
      | .ok (n?, a?) => .ok (foldEmpty n?, foldEmpty a?)

-- ===========================================================================
-- parse_hdr_to_cc (script lines 410-427)

/-- `parse_hdr_to_cc` of the script: the outer try/except around extracting
the header (whose structural parse may throw inside the email package), the
`None` test, and the inner try/except around `getaddresses`.  The two
collaborators are passed in: `extract` models `msg[to_cc]` and `getaddrs`
models `getaddresses([hdr])`, each with `Except.error` for a raised
exception.  Every failure path returns the empty list. -/
def parse_hdr_to_cc (extract : Except Str (Option Str))
    (getaddrs : Str → Except Str (List (Str × Str))) : List (Str × Str) :=
  match extract with
  | .error _ => []
  | .ok none => []
  | .ok (some hdr) =>
    match getaddrs hdr with
    | .error _ => []
    | .ok pairs => pairs

/-- Model of `email.utils.getaddresses` restricted to the one shape the
theorems below feed it — a single bare addr-spec with no comma, angle
bracket or quote — which parses to one (empty name, address) pair; any
other shape is left unmodelled as an error. -/
def getaddressesModel (hdr : Str) : Except Str (List (Str × Str)) :=
  if pyContains hdr (str ",") ∨ pyContains hdr (str "<") ∨ pyContains hdr (str "\"") then
    .error (str "unmodelled header shape")
  else
    .ok [([], pyStripWs hdr)]

-- ===========================================================================
-- parse_hdr_date (script lines 438-490)

/-- Model of a Python `datetime.datetime` as far as `strftime("%Y-%m-%d
%H:%M:%S")` needs it: the six calendar fields with the bounds the datetime
type guarantees. -/
structure PyDateTime where
  year : Nat
  month : Nat
  day : Nat
  hour : Nat
  minute : Nat
  second : Nat
  year_le : year ≤ 9999
  month_le : month ≤ 12
  day_le : day ≤ 31
  hour_le : hour ≤ 23
  minute_le : minute ≤ 59
  second_le : second ≤ 61

def digitChar : Nat → Char
  | 0 => '0' | 1 => '1' | 2 => '2' | 3 => '3' | 4 => '4'
  | 5 => '5' | 6 => '6' | 7 => '7' | 8 => '8' | 9 => '9'
  | _ => '0'

def pad2 (n : Nat) : Str := [digitChar (n / 10 % 10), digitChar (n % 10)]

def pad4 (n : Nat) : Str :=
  [digitChar (n / 1000 % 10), digitChar (n / 100 % 10), digitChar (n / 10 % 10), digitChar (n % 10)]

/-- Model of `datetime.strftime("%Y-%m-%d %H:%M:%S")`: zero-padded decimal
fields joined by the fixed separators. -/
def strftimeYmdHMS (t : PyDateTime) : Str :=
  pad4 t.year ++ ['-'] ++ pad2 t.month ++ ['-'] ++ pad2 t.day ++ [' ']
    ++ pad2 t.hour ++ [':'] ++ pad2 t.minute ++ [':'] ++ pad2 t.second

/-- Script lines 452-454: drop the last space-separated field of the header
and append "+0000" (repair of a malformed timezone offset). -/
def assumeUtcOffset (hdr : Str) : Str :=
  List.intercalate (str " ") ((pySplitChar ' ' hdr).dropLast ++ [str "+0000"])

/-- Script line 482: `hdr.replace(": ", ":0").replace("  ", " 0")` (repair of
unpadded hour/minute fields). -/
def padHourMin (hdr : Str) : Str :=
  pyReplace (pyReplace hdr (str ": ") (str ":0")) (str "  ") (str " 0")

/-- `parse_hdr_date` of the script (lines 438-490).  The standard-library
collaborators are parameters: `pdt` models `email.utils.parsedate_to_datetime`
and the three `strp*` arguments model `datetime.strptime` at the formats
"%d-%b-%y %H:%M:%S", "%d-%b-%y %H:%M" and "%Y-%m-%d %H:%M:%S"; `none` models
their raised exceptions, caught by the script's nested try/except.
`astimezoneUTC` models `datetime.astimezone(datetime.UTC)`. -/
def parse_hdr_date (pdt strpDbyHMS strpDbyHM strpYmdHMS : Str → Option PyDateTime)
    (astimezoneUTC : PyDateTime → PyDateTime) (hdr? : Option Str) : Option Str :=
  match hdr? with
  | none => none
  | some h0 =>
    let hdr := pyStripWs h0
    match pdt hdr with
    | some t => some (strftimeYmdHMS (astimezoneUTC t))
    | none =>
      match pdt (assumeUtcOffset hdr) with
      | some t => some (strftimeYmdHMS (astimezoneUTC t))
      | none =>
        match strpDbyHMS hdr with
        | some t => some (strftimeYmdHMS (astimezoneUTC t))
        | none =>
          match strpDbyHM hdr with
          | some t => some (strftimeYmdHMS (astimezoneUTC t))
          | none =>
            match strpYmdHMS hdr with
            | some t => some (strftimeYmdHMS (astimezoneUTC t))
            | none =>
              match pdt (padHourMin hdr) with
              | some t => some (strftimeYmdHMS (astimezoneUTC t))
              | none => none

/-- The first defined element of a list of attempts. -/
def firstSome {α : Type} : List (Option α) → Option α
  | [] => none
  | some x :: _ => some x
  | none :: r => firstSome r

/-- The six parse attempts of `parse_hdr_date`, in the order the script
tries them. -/
def dateAttempts (pdt strpDbyHMS strpDbyHM strpYmdHMS : Str → Option PyDateTime)
    (hdr : Str) : List (Option PyDateTime) :=
  [pdt hdr, pdt (assumeUtcOffset hdr), strpDbyHMS hdr, strpDbyHM hdr, strpYmdHMS hdr,
   pdt (padHourMin hdr)]

/-- "YYYY-MM-DD HH:MM:SS": 19 characters, digits in the field positions and
the fixed separators between them. -/
def isDateShape (s : Str) : Bool :=
  match s with
  | [y3, y2, y1, y0, s1, mo1, mo0, s2, d1, d0, s3, h1, h0, s4, mi1, mi0, s5, se1, se0] =>
    y3.isDigit && y2.isDigit && y1.isDigit && y0.isDigit && s1 == '-' &&
    mo1.isDigit && mo0.isDigit && s2 == '-' && d1.isDigit && d0.isDigit &&
    s3 == ' ' && h1.isDigit && h0.isDigit && s4 == ':' && mi1.isDigit &&
    mi0.isDigit && s5 == ':' && se1.isDigit && se0.isDigit
  | _ => false

-- ===========================================================================
-- The per-folder summary loop of `__main__` (script lines 559-605)

structure FolderState where
  msg_count : Nat
  first_date : Str
  final_date : Str
deriving DecidableEq

/-- Python `<` on strings: lexicographic comparison by code point. -/
def pyStrLt : Str → Str → Bool
  | [], [] => false
  | [], _ :: _ => true
  | _ :: _, [] => false
  | a :: as, b :: bs => if a < b then true else if b < a then false else pyStrLt as bs

def sentinelFirst : Str := str "2038-01-19 03:14:07"
def sentinelFinal : Str := str "1970-01-01 00:00:00"

/-- Script lines 563-565: the summary accumulators before the folder's
message loop. -/
def initFolderState : FolderState := ⟨0, sentinelFirst, sentinelFinal⟩

/-- One iteration of the folder loop, restricted to the summary state it
updates (script lines 571-601): `msg_count += 1`, then
`if msg["date"] is not None and msg["date"] > final_date: final_date = ...`
and the symmetric `< first_date` update. -/
def folderStep (st : FolderState) (date? : Option Str) : FolderState :=
  let count := st.msg_count + 1
  let final_date :=
    match date? with
    | some d => if pyStrLt st.final_date d then d else st.final_date
    | none => st.final_date
  let first_date :=
    match date? with
    | some d => if pyStrLt d st.first_date then d else st.first_date
    | none => st.first_date
  ⟨count, first_date, final_date⟩

/-- The whole per-folder fold: the summary row `(msg_count, first_date,
final_date)` emitted at script line 603, as a function of the parsed dates
of the folder's messages in order. -/
def foldFolder (dates : List (Option Str)) : FolderState :=
  dates.foldl folderStep initFolderState

/-- Fold-minimum under `pyStrLt`, seeded with an accumulator. -/
def foldMinFrom (acc : Str) (l : List Str) : Str :=
  l.foldl (fun a d => if pyStrLt d a then d else a) acc

/-- Fold-maximum under `pyStrLt`, seeded with an accumulator. -/
def foldMaxFrom (acc : Str) (l : List Str) : Str :=
  l.foldl (fun a d => if pyStrLt a d then d else a) acc

-- ===========================================================================
-- Lemma layer: characters

/-- A "plain" address character: fixed under the ASCII lower-case map and not
one of the characters any normalization step of `fix_addr` reacts to
(`=`, `@`, quotes, angle brackets, whitespace). -/
def plainAddrChar (c : Char) : Bool :=
  (c.toLower == c) && !(c == '=') && !(c == '@') && !(c == quoteCh) && !(c == aposCh) &&
  !(c == '<') && !(c == '>') && !(c == ' ') && !(c == Char.ofNat 9) && !(c == Char.ofNat 10) &&
  !(c == Char.ofNat 13) && !(c == Char.ofNat 11) && !(c == Char.ofNat 12)

/-- A character of a well-behaved address: plain or the address separator. -/
def okChar (c : Char) : Bool := plainAddrChar c || c == '@'

/-- Well-formedness of a normalized display name: no strippable surrounding
characters, no " via Datatracker" suffix, nonempty.  (`none` is always
well-formed.) -/
def nameNormalOK : Option Str → Bool
  | none => true
  | some s => (pyStrip nameStripChars s == s) && !pyEndsWith s viaDatatracker && !s.isEmpty

/-- Well-formedness of a normalized address: lower-case, no DMARC suffix, no
leading or trailing quote/apostrophe/angle character, containing neither
" at " nor " on behalf of ", whitespace-trimmed, nonempty. -/
def addrNormalOK : Option Str → Bool
  | none => true
  | some s =>
    (pyLower s == s) && !pyEndsWith s dmarcDomain && (pyLstrip leadJunk s == s) &&
    (pyRstrip trailJunk s == s) && !pyContains s atObfuscation && !pyContains s onBehalfOf &&
    (pyStripWs s == s) && !s.isEmpty

def isOkE {α : Type} : Except Str α → Bool
  | .ok _ => true
  | .error _ => false

theorem not_mem_of_all_plain {l : Str} {x : Char} (hx : plainAddrChar x = false)
    (h : l.all plainAddrChar = true) : x ∉ l := by
  intro hm
  have := List.all_eq_true.mp h x hm
  rw [hx] at this
  exact Bool.noConfusion this

theorem toLower_eq_of_plain {c : Char} (h : plainAddrChar c = true) : c.toLower = c := by
  unfold plainAddrChar at h
  simp only [Bool.and_eq_true, beq_iff_eq] at h
  exact h.1.1.1.1.1.1.1.1.1.1.1.1

theorem pyLower_eq_of_all_plain {l : Str} (h : l.all plainAddrChar = true) : pyLower l = l := by
  induction l with
  | nil => rfl
  | cons c r ih =>
    simp only [List.all_cons, Bool.and_eq_true] at h
    simp only [pyLower, List.map_cons]
    rw [toLower_eq_of_plain h.1]
    exact congrArg (c :: ·) (ih h.2)

theorem pyLower_append (a b : Str) : pyLower (a ++ b) = pyLower a ++ pyLower b :=
  List.map_append _ a b

theorem mem_of_pyLower_eq {s : Str} (h : pyLower s = s) : ∀ c ∈ s, c.toLower = c := by
  induction s with
  | nil => intro c hc; cases hc
  | cons a r ih =>
    intro c hc
    simp only [pyLower, List.map_cons, List.cons.injEq] at h
    cases hc with
    | head => exact h.1
    | tail _ hm => exact ih h.2 c hm

-- ===========================================================================
-- Lemma layer: strips

theorem pyLstrip_nil (cs : Str) : pyLstrip cs [] = [] := rfl

theorem pyLstrip_cons_not_mem {cs : Str} {c : Char} (r : Str) (h : c ∉ cs) :
    pyLstrip cs (c :: r) = c :: r := by
  simp [pyLstrip, h]

theorem pyLstrip_head_not_mem {cs s : Str} {c : Char} {r : Str}
    (h : pyLstrip cs s = c :: r) : c ∉ cs := by
  induction s with
  | nil => exact absurd h (by simp [pyLstrip])
  | cons a t ih =>
    by_cases ha : a ∈ cs
    · simp only [pyLstrip, if_pos ha] at h
      exact ih h
    · simp only [pyLstrip, if_neg ha] at h
      cases h
      exact ha

theorem pyLstrip_idem (cs s : Str) : pyLstrip cs (pyLstrip cs s) = pyLstrip cs s := by
  cases hs : pyLstrip cs s with
  | nil => rfl
  | cons c r => exact pyLstrip_cons_not_mem r (pyLstrip_head_not_mem hs)

theorem pyLstrip_suffix (cs s : Str) : ∃ t, s = t ++ pyLstrip cs s := by
  induction s with
  | nil => exact ⟨[], rfl⟩
  | cons a r ih =>
    by_cases ha : a ∈ cs
    · obtain ⟨t, ht⟩ := ih
      refine ⟨a :: t, ?_⟩
      simp only [pyLstrip, if_pos ha]
      rw [List.cons_append]
      exact congrArg (a :: ·) ht
    · exact ⟨[], by simp [pyLstrip, ha]⟩

theorem pyRstrip_idem (cs s : Str) : pyRstrip cs (pyRstrip cs s) = pyRstrip cs s := by
  unfold pyRstrip
  rw [List.reverse_reverse, pyLstrip_idem]

theorem pyLstrip_of_lstripped_rstrip (cs s : Str) :
    pyLstrip cs (pyRstrip cs (pyLstrip cs s)) = pyRstrip cs (pyLstrip cs s) := by
  cases hz : pyRstrip cs (pyLstrip cs s) with
  | nil => rfl
  | cons c r =>
    refine pyLstrip_cons_not_mem r ?_
    obtain ⟨t, ht⟩ := pyLstrip_suffix cs (pyLstrip cs s).reverse
    have hy : pyLstrip cs s = pyRstrip cs (pyLstrip cs s) ++ t.reverse := by
      have h2 := congrArg List.reverse ht
      rw [List.reverse_reverse, List.reverse_append] at h2
      exact h2
    rw [hz] at hy
    cases hy' : pyLstrip cs s with
    | nil => rw [hy'] at hy; exact absurd hy (by simp)
    | cons c' r' =>
      have hc : c' = c := by
        rw [hy'] at hy
        exact (List.cons.injEq _ _ _ _ ▸ hy).1
      exact hc ▸ pyLstrip_head_not_mem hy'

theorem pyStrip_idem (cs s : Str) : pyStrip cs (pyStrip cs s) = pyStrip cs s := by
  unfold pyStrip
  rw [pyLstrip_of_lstripped_rstrip, pyRstrip_idem]

theorem pyLstrip_noop_of_head {cs s : Str} (h : ∀ c, s.head? = some c → c ∉ cs) :
    pyLstrip cs s = s := by
  cases s with
  | nil => rfl
  | cons a r => exact pyLstrip_cons_not_mem r (h a rfl)

theorem pyRstrip_noop_of_last {cs s : Str} (h : ∀ c, s.getLast? = some c → c ∉ cs) :
    pyRstrip cs s = s := by
  unfold pyRstrip
  rw [pyLstrip_noop_of_head, List.reverse_reverse]
  intro c hc
  exact h c (by rwa [List.head?_reverse] at hc)

theorem pyLstrip_fix_head {cs s : Str} {c : Char} {r : Str} (hfix : pyLstrip cs s = s)
    (hs : s = c :: r) : c ∉ cs := pyLstrip_head_not_mem (hs ▸ hfix.trans hs)

theorem pyLstrip_noop_of_all {cs s : Str} (h : ∀ c ∈ s, c ∉ cs) : pyLstrip cs s = s := by
  cases s with
  | nil => rfl
  | cons a r => exact pyLstrip_cons_not_mem r (h a (List.mem_cons_self a r))

theorem pyRstrip_noop_of_all {cs s : Str} (h : ∀ c ∈ s, c ∉ cs) : pyRstrip cs s = s := by
  unfold pyRstrip
  rw [pyLstrip_noop_of_all fun c hc => h c (List.mem_reverse.mp hc), List.reverse_reverse]

theorem pyStrip_noop_of_all {cs s : Str} (h : ∀ c ∈ s, c ∉ cs) : pyStrip cs s = s := by
  unfold pyStrip
  rw [pyLstrip_noop_of_all h, pyRstrip_noop_of_all h]

-- ===========================================================================
-- Lemma layer: substrings, replacement, counting

theorem pyContainsAux_false_of_head_not_mem {p : Char} {ps : Str} {s : Str} (h : p ∉ s) :
    pyContainsAux (p :: ps) s = false := by
  induction s with
  | nil => rfl
  | cons c r ih =>
    have hpc : (p == c) = false := by
      exact beq_eq_false_iff_ne.mpr fun he => h (he ▸ List.mem_cons_self c r)
    have hpr : p ∉ r := fun hm => h (List.mem_cons_of_mem c hm)
    simp only [pyContainsAux, List.isPrefixOf, hpc, Bool.false_and, Bool.false_or]
    exact ih hpr

theorem pyContains_false_of_head_not_mem {p : Char} {ps : Str} {s : Str} (h : p ∉ s) :
    pyContains s (p :: ps) = false := pyContainsAux_false_of_head_not_mem h

theorem pyContainsAux_append_self (pat l m : Str) : pyContainsAux pat (l ++ (pat ++ m)) = true := by
  induction l with
  | nil =>
    rw [List.nil_append]
    cases pat with
    | nil =>
      cases m with
      | nil => rfl
      | cons c r => simp [pyContainsAux, List.isPrefixOf]
    | cons p ps =>
      have : (p :: ps).isPrefixOf ((p :: ps) ++ m) = true :=
        List.isPrefixOf_iff_prefix.mpr (List.prefix_append _ m)
      rw [List.cons_append]
      rw [List.cons_append] at this
      simp only [pyContainsAux, this, Bool.true_or]
  | cons a l' ih =>
    rw [List.cons_append]
    simp only [pyContainsAux, ih, Bool.or_true]

theorem mem_of_pyEndsWith {s t : Str} (h : pyEndsWith s t = true) : ∀ c ∈ t, c ∈ s := by
  unfold pyEndsWith at h
  exact fun c hc => (List.isSuffixOf_iff_suffix.mp h).subset hc

theorem pyEndsWith_false_of_not_mem {s t : Str} {c : Char} (hct : c ∈ t) (hcs : c ∉ s) :
    pyEndsWith s t = false := by
  cases h : pyEndsWith s t
  · rfl
  · exact absurd (mem_of_pyEndsWith h c hct) hcs

theorem pyEndsWith_append (x sfx : Str) : pyEndsWith (x ++ sfx) sfx = true :=
  List.isSuffixOf_iff_suffix.mpr (List.suffix_append x sfx)

theorem pyReplaceF_noop {pat rep : Str} :
    ∀ (f : Nat) (s : Str), s.length ≤ f → pyContainsAux pat s = false →
      pyReplaceF pat rep f s = s := by
  intro f
  induction f with
  | zero => intro s _ _; rfl
  | succ f ih =>
    intro s hlen hc
    cases s with
    | nil => rfl
    | cons c r =>
      have hpre : pat.isPrefixOf (c :: r) = false := by
        cases hp : pat.isPrefixOf (c :: r)
        · rfl
        · rw [pyContainsAux, hp, Bool.true_or] at hc
          exact hc
      have hc2 : pyContainsAux pat r = false := by
        rw [pyContainsAux, hpre, Bool.false_or] at hc
        exact hc
      rw [pyReplaceF, if_neg (by simp [hpre])]
      exact congrArg (c :: ·) (ih r (Nat.le_of_succ_le_succ hlen) hc2)

theorem pyReplace_noop {s pat rep : Str} (hc : pyContains s pat = false) :
    pyReplace s pat rep = s :=
  pyReplaceF_noop s.length s le_rfl hc

theorem pyReplaceF_boundary {p : Char} {ps rep : Str} :
    ∀ (f : Nat) (l m : Str), (l ++ ((p :: ps) ++ m)).length ≤ f → p ∉ l →
      pyContainsAux (p :: ps) m = false →
      pyReplaceF (p :: ps) rep f (l ++ ((p :: ps) ++ m)) = l ++ (rep ++ m) := by
  intro f
  induction f with
  | zero =>
    intro l m hlen _ _
    exfalso
    simp only [List.length_append, List.length_cons, Nat.le_zero] at hlen
    omega
  | succ f ih =>
    intro l m hlen hp hm
    cases l with
    | nil =>
      simp only [List.nil_append] at hlen ⊢
      have hpre : (p :: ps).isPrefixOf ((p :: ps) ++ m) = true :=
        List.isPrefixOf_iff_prefix.mpr (List.prefix_append _ m)
      rw [List.cons_append] at hpre ⊢
      rw [pyReplaceF, if_pos ⟨List.cons_ne_nil p ps, hpre⟩]
      have hlen2 : m.length ≤ f := by
        simp only [List.length_cons, List.length_append] at hlen
        omega
      rw [show (p :: ps).length - 1 = ps.length from by simp]
      rw [List.drop_left ps m]
      rw [pyReplaceF_noop f m hlen2 hm]
    | cons a l' =>
      simp only [List.cons_append] at hlen ⊢
      have hne : (p == a) = false :=
        beq_eq_false_iff_ne.mpr fun he => hp (he ▸ List.mem_cons_self a l')
      have hpa : (p :: ps).isPrefixOf (a :: (l' ++ p :: (ps ++ m))) = false := by
        rw [List.isPrefixOf_cons₂, hne, Bool.false_and]
      rw [pyReplaceF, if_neg fun hcond => by rw [hpa] at hcond; exact Bool.noConfusion hcond.2]
      have hp' : p ∉ l' := fun hmem => hp (List.mem_cons_of_mem a hmem)
      have hlen' : (l' ++ ((p :: ps) ++ m)).length ≤ f := by
        simp only [List.length_append, List.length_cons] at hlen ⊢
        omega
      have hrec := ih l' m hlen' hp' hm
      simp only [List.cons_append] at hrec
      rw [hrec]

theorem pyReplace_boundary {p : Char} {ps rep : Str} {l m : Str} (hp : p ∉ l)
    (hm : pyContainsAux (p :: ps) m = false) :
    pyReplace (l ++ ((p :: ps) ++ m)) (p :: ps) rep = l ++ (rep ++ m) :=
  pyReplaceF_boundary _ l m le_rfl hp hm

theorem count_append_at {l m : Str} (hl : '@' ∉ l) (hm : '@' ∉ m) :
    (l ++ '@' :: m).count '@' = 1 := by
  rw [List.count_append, List.count_cons_self, List.count_eq_zero.mpr hl,
    List.count_eq_zero.mpr hm]

-- ===========================================================================
-- Lemma layer: the normalization stages on well-behaved strings

theorem pyLower_fix_of_forall {l : Str} (h : ∀ c ∈ l, c.toLower = c) : pyLower l = l := by
  induction l with
  | nil => rfl
  | cons c r ih =>
    simp only [pyLower, List.map_cons]
    rw [h c (List.mem_cons_self c r)]
    exact congrArg (c :: ·) (ih fun x hx => h x (List.mem_cons_of_mem c hx))

theorem no_RemoveThisWord_of_lower {s : Str} (h : pyLower s = s) :
    pyEndsWith s removeThisWord = false := by
  cases he : pyEndsWith s removeThisWord
  · rfl
  · exfalso
    have hR : 'R' ∈ s := mem_of_pyEndsWith he 'R' (by decide)
    exact absurd (mem_of_pyLower_eq h 'R' hR) (by decide)

theorem addrDmarc_noop {s : Str} (h : pyEndsWith s dmarcDomain = false) : addrDmarc s = s := by
  simp [addrDmarc, h]

theorem addrCollapse_noop_count {s : Str} (h : ¬s.count '@' = 2) : addrCollapse s = s := by
  unfold addrCollapse
  rw [if_neg h]

theorem pySplitChar_ne_nil (sep : Char) (s : Str) : pySplitChar sep s ≠ [] := by
  cases s with
  | nil => simp [pySplitChar]
  | cons c r =>
    unfold pySplitChar
    cases h : pySplitChar sep r with
    | nil => simp
    | cons p pt =>
      by_cases hc : c = sep <;> simp [hc]

theorem addrCollapse_noop_head {s : Str} (h : s.head? ≠ some quoteCh) : addrCollapse s = s := by
  by_cases h2 : s.count '@' = 2
  · have hq : pyStartsWith ((pySplitChar '@' s)[0]?.getD []) [quoteCh] = false := by
      cases s with
      | nil => decide
      | cons c r =>
        by_cases hc : c = '@'
        · subst hc
          unfold pySplitChar
          cases hsp : pySplitChar '@' r with
          | nil => exact absurd hsp (pySplitChar_ne_nil '@' r)
          | cons p pt =>
            simp [pyStartsWith, List.isPrefixOf]
        · have hcq : (quoteCh == c) = false :=
            beq_eq_false_iff_ne.mpr fun he => h (by rw [← he]; rfl)
          unfold pySplitChar
          cases hsp : pySplitChar '@' r with
          | nil => exact absurd hsp (pySplitChar_ne_nil '@' r)
          | cons p pt =>
            simp only [if_neg hc, List.getElem?_cons_zero, Option.getD_some]
            unfold pyStartsWith
            rw [List.isPrefixOf_cons₂, hcq, Bool.false_and]
    unfold addrCollapse
    rw [if_pos h2]
    simp [hq]
  · exact addrCollapse_noop_count h2

theorem addrAt_noop {s : Str} (h : pyContains s atObfuscation = false) : addrAt s = s := by
  simp [addrAt, h]

theorem addrStripJunk_noop {s : Str} (h1 : pyLstrip leadJunk s = s)
    (h2 : pyRstrip trailJunk s = s) : addrStripJunk s = s := by
  unfold addrStripJunk
  rw [h1, h2]

theorem addrRemoveWord_noop {s : Str} (h : pyEndsWith s removeThisWord = false) :
    addrRemoveWord s = s := by
  simp [addrRemoveWord, h]

theorem addrBehalf_noop {s : Str} (h : pyContains s onBehalfOf = false) : addrBehalf s = s := by
  simp [addrBehalf, h]

theorem okChar_plain {c : Char} (h : plainAddrChar c = true) : okChar c = true := by
  simp [okChar, h]

theorem not_mem_of_okChar {u : Str} {x : Char} (hx : okChar x = false)
    (h : ∀ c ∈ u, okChar c = true) : x ∉ u := by
  intro hm
  have h2 := h x hm
  rw [hx] at h2
  exact Bool.noConfusion h2

theorem okChar_toLower {c : Char} (h : okChar c = true) : c.toLower = c := by
  have h2 : plainAddrChar c = true ∨ c = '@' := by
    simpa [okChar, Bool.or_eq_true, beq_iff_eq] using h
  rcases h2 with hp | rfl
  · exact toLower_eq_of_plain hp
  · decide

theorem okChars_append_at {l m : Str} (hl : l.all plainAddrChar = true)
    (hm : m.all plainAddrChar = true) : ∀ c ∈ l ++ '@' :: m, okChar c = true := by
  intro c hc
  rcases List.mem_append.mp hc with hcl | hcm
  · exact okChar_plain (List.all_eq_true.mp hl c hcl)
  · rcases List.mem_cons.mp hcm with rfl | hcm'
    · decide
    · exact okChar_plain (List.all_eq_true.mp hm c hcm')

theorem okChars_of_plain {u : Str} (hu : u.all plainAddrChar = true) :
    ∀ c ∈ u, okChar c = true :=
  fun c hc => okChar_plain (List.all_eq_true.mp hu c hc)

theorem pyLower_fix_ok {u : Str} (hok : ∀ c ∈ u, okChar c = true) : pyLower u = u :=
  pyLower_fix_of_forall fun c hc => okChar_toLower (hok c hc)

theorem stripWs_noop_ok {u : Str} (hok : ∀ c ∈ u, okChar c = true) : pyStripWs u = u := by
  refine pyStrip_noop_of_all fun c hc hm => ?_
  have h2 : okChar c = false := (by decide : ∀ c ∈ wsChars, okChar c = false) c hm
  rw [hok c hc] at h2
  exact Bool.noConfusion h2

/-- On a string whose characters are plain or "@", the junk-strip,
".RemoveThisWord" and "on behalf of" stages are the identity. -/
theorem stages3_noop_ok {u : Str} (hok : ∀ c ∈ u, okChar c = true) :
    addrBehalf (addrRemoveWord (addrStripJunk u)) = u := by
  have hsp : ' ' ∉ u := not_mem_of_okChar (by decide) hok
  have hbe : pyContains u onBehalfOf = false := pyContains_false_of_head_not_mem hsp
  have hlj : pyLstrip leadJunk u = u := by
    refine pyLstrip_noop_of_all fun c hc hm => ?_
    have h2 : okChar c = false := (by decide : ∀ c ∈ leadJunk, okChar c = false) c hm
    rw [hok c hc] at h2
    exact Bool.noConfusion h2
  have htj : pyRstrip trailJunk u = u := by
    refine pyRstrip_noop_of_all fun c hc hm => ?_
    have h2 : okChar c = false := (by decide : ∀ c ∈ trailJunk, okChar c = false) c hm
    rw [hok c hc] at h2
    exact Bool.noConfusion h2
  rw [addrStripJunk_noop hlj htj,
    addrRemoveWord_noop (no_RemoveThisWord_of_lower (pyLower_fix_ok hok)), addrBehalf_noop hbe]

/-- On a string whose characters are plain or "@" and whose "@"-count is not
two, the five normalization stages after the DMARC rewrite are the
identity. -/
theorem stages_noop_ok {u : Str} (hok : ∀ c ∈ u, okChar c = true)
    (hcount : ¬u.count '@' = 2) :
    addrBehalf (addrRemoveWord (addrStripJunk (addrAt (addrCollapse u)))) = u := by
  have hsp : ' ' ∉ u := not_mem_of_okChar (by decide) hok
  have hat : pyContains u atObfuscation = false := pyContains_false_of_head_not_mem hsp
  rw [addrCollapse_noop_count hcount, addrAt_noop hat]
  exact stages3_noop_ok hok

-- ===========================================================================
-- fix_addr on structured inputs

theorem fixAddr_tail_at {l m : Str} (hl : l.all plainAddrChar = true)
    (hm : m.all plainAddrChar = true) :
    addrBehalf (addrRemoveWord (addrStripJunk (addrAt (addrCollapse (l ++ '@' :: m))))) =
      l ++ '@' :: m := by
  have hok := okChars_append_at hl hm
  have h1 : (l ++ '@' :: m).count '@' = 1 :=
    count_append_at (not_mem_of_all_plain (by decide) hl) (not_mem_of_all_plain (by decide) hm)
  refine stages_noop_ok hok fun hx => ?_
  rw [h1] at hx
  exact absurd hx (by decide)

/-- `fix_addr` on an address of the shape `local=40domain@dmarc.ietf.org`
built from plain characters: the DMARC suffix is stripped, the "=40" escape
decodes to "@", and no later stage changes the result. -/
theorem fixAddr_on_dmarc {l m : Str} (hl : l.all plainAddrChar = true)
    (hm : m.all plainAddrChar = true) :
    fix_addr (some (l ++ eq40 ++ m ++ dmarcDomain)) = some (l ++ '@' :: m) := by
  have hlow : pyLower (l ++ eq40 ++ m ++ dmarcDomain) = l ++ eq40 ++ m ++ dmarcDomain := by
    rw [pyLower_append, pyLower_append, pyLower_append, pyLower_eq_of_all_plain hl,
      pyLower_eq_of_all_plain hm, show pyLower eq40 = eq40 from by decide,
      show pyLower dmarcDomain = dmarcDomain from by decide]
  have hassoc : l ++ eq40 ++ m ++ dmarcDomain = (l ++ eq40 ++ m) ++ dmarcDomain := by
    simp [List.append_assoc]
  have hdm : addrDmarc (l ++ eq40 ++ m ++ dmarcDomain) = l ++ '@' :: m := by
    unfold addrDmarc
    rw [hassoc, if_pos (pyEndsWith_append _ _)]
    unfold pyCutLast
    rw [show ((l ++ eq40 ++ m) ++ dmarcDomain).length - 15 = (l ++ eq40 ++ m).length from by
      simp [List.length_append, show dmarcDomain.length = 15 from rfl]
      omega]
    rw [List.take_left]
    rw [show eq40 = '=' :: ['4', '0'] from by decide]
    have heql : '=' ∉ l := not_mem_of_all_plain (by decide) hl
    have heqm : '=' ∉ m := not_mem_of_all_plain (by decide) hm
    rw [List.append_assoc]
    rw [pyReplace_boundary heql (pyContainsAux_false_of_head_not_mem heqm)]
    rw [show atSign = ['@'] from by decide, List.singleton_append]
  have hcore : fixAddrCore (l ++ eq40 ++ m ++ dmarcDomain) = l ++ '@' :: m := by
    unfold fixAddrCore
    rw [hlow, hdm, fixAddr_tail_at hl hm]
  simp only [fix_addr, hcore]
  rw [if_neg (by simp), stripWs_noop_ok (okChars_append_at hl hm)]

/-- `fix_addr` on a plain address carrying only the bare DMARC suffix: the
suffix is stripped and nothing else changes. -/
theorem fixAddr_on_dmarc_plain {l : Str} (hl : l.all plainAddrChar = true) (hne : l ≠ []) :
    fix_addr (some (l ++ dmarcDomain)) = some l := by
  have hok : ∀ c ∈ l, okChar c = true := okChars_of_plain hl
  have hlow : pyLower (l ++ dmarcDomain) = l ++ dmarcDomain := by
    rw [pyLower_append, pyLower_eq_of_all_plain hl,
      show pyLower dmarcDomain = dmarcDomain from by decide]
  have hdm : addrDmarc (l ++ dmarcDomain) = l := by
    unfold addrDmarc
    rw [if_pos (pyEndsWith_append _ _)]
    unfold pyCutLast
    rw [show (l ++ dmarcDomain).length - 15 = l.length from by
      simp [List.length_append, show dmarcDomain.length = 15 from rfl]]

    rw [List.take_left]
    refine pyReplace_noop ?_
    rw [show eq40 = '=' :: ['4', '0'] from by decide]
    have heql : '=' ∉ l := not_mem_of_all_plain (by decide) hl
    exact pyContains_false_of_head_not_mem heql
  have hcount : ¬l.count '@' = 2 := by
    intro hx
    rw [List.count_eq_zero.mpr (not_mem_of_all_plain (by decide) hl)] at hx
    exact absurd hx (by decide)
  have hcore : fixAddrCore (l ++ dmarcDomain) = l := by
    unfold fixAddrCore
    rw [hlow, hdm, stages_noop_ok hok hcount]
  simp only [fix_addr, hcore]
  rw [if_neg hne, stripWs_noop_ok hok]

/-- `fix_addr` on an address of the shape `local at domain` built from plain
characters: the " at " obfuscation decodes to "@". -/
theorem fixAddr_on_atObfuscation {l m : Str} (hl : l.all plainAddrChar = true)
    (hm : m.all plainAddrChar = true) :
    fix_addr (some (l ++ atObfuscation ++ m)) = some (l ++ '@' :: m) := by
  have hspl : ' ' ∉ l := not_mem_of_all_plain (by decide) hl
  have hspm : ' ' ∉ m := not_mem_of_all_plain (by decide) hm
  have hAl : '@' ∉ l := not_mem_of_all_plain (by decide) hl
  have hAm : '@' ∉ m := not_mem_of_all_plain (by decide) hm
  have hnoAt : '@' ∉ l ++ atObfuscation ++ m := by
    intro hmem
    rcases List.mem_append.mp hmem with h | h
    · rcases List.mem_append.mp h with h' | h'
      · exact hAl h'
      · exact absurd h' (by decide)
    · exact hAm h
  have hlow : pyLower (l ++ atObfuscation ++ m) = l ++ atObfuscation ++ m := by
    rw [pyLower_append, pyLower_append, pyLower_eq_of_all_plain hl,
      pyLower_eq_of_all_plain hm, show pyLower atObfuscation = atObfuscation from by decide]
  have hdm : addrDmarc (l ++ atObfuscation ++ m) = l ++ atObfuscation ++ m :=
    addrDmarc_noop (pyEndsWith_false_of_not_mem (by decide : '@' ∈ dmarcDomain) hnoAt)
  have hcol : addrCollapse (l ++ atObfuscation ++ m) = l ++ atObfuscation ++ m := by
    refine addrCollapse_noop_count fun hx => ?_
    rw [List.count_eq_zero.mpr hnoAt] at hx
    exact absurd hx (by decide)
  have hat : addrAt (l ++ atObfuscation ++ m) = l ++ '@' :: m := by
    have hcont : pyContains (l ++ atObfuscation ++ m) atObfuscation = true := by
      rw [List.append_assoc]
      exact pyContainsAux_append_self atObfuscation l m
    unfold addrAt
    rw [if_pos hcont]
    rw [show atObfuscation = ' ' :: ['a', 't', ' '] from by decide]
    rw [List.append_assoc]
    rw [pyReplace_boundary hspl (pyContainsAux_false_of_head_not_mem hspm)]
    rw [show atSign = ['@'] from by decide, List.singleton_append]
  have hcore : fixAddrCore (l ++ atObfuscation ++ m) = l ++ '@' :: m := by
    unfold fixAddrCore
    rw [hlow, hdm, hcol, hat, stages3_noop_ok (okChars_append_at hl hm)]
  simp only [fix_addr, hcore]
  rw [if_neg (by simp), stripWs_noop_ok (okChars_append_at hl hm)]

-- ===========================================================================
-- Fixed points of the normalizer (for the idempotence analysis)

theorem fix_name_fixpoint {s : Str} (h1 : pyStrip nameStripChars s = s)
    (h2 : pyEndsWith s viaDatatracker = false) (h3 : s ≠ []) : fix_name (some s) = some s := by
  simp [fix_name, h1, h2, h3]

theorem fix_addr_fixpoint {s : Str} (hlow : pyLower s = s) (hdm : pyEndsWith s dmarcDomain = false)
    (hlj : pyLstrip leadJunk s = s) (htj : pyRstrip trailJunk s = s)
    (hat : pyContains s atObfuscation = false) (hbe : pyContains s onBehalfOf = false)
    (hws : pyStripWs s = s) (hne : s ≠ []) : fix_addr (some s) = some s := by
  have hhead : s.head? ≠ some quoteCh := by
    cases s with
    | nil => simp
    | cons c r =>
      intro he
      have hc : c = quoteCh := Option.some.inj he
      subst hc
      exact (pyLstrip_fix_head hlj rfl) (by decide)
  have hcore : fixAddrCore s = s := by
    unfold fixAddrCore
    rw [hlow, addrDmarc_noop hdm, addrCollapse_noop_head hhead, addrAt_noop hat,
      addrStripJunk_noop hlj htj, addrRemoveWord_noop (no_RemoveThisWord_of_lower hlow),
      addrBehalf_noop hbe]
  simp only [fix_addr, hcore]
  rw [if_neg hne, hws]

theorem fix_addr_result_stripped {s r : Str} (h : fix_addr (some s) = some r) :
    pyStripWs r = r := by
  simp only [fix_addr] at h
  by_cases hc : fixAddrCore s = []
  · rw [if_pos hc] at h
    exact absurd h (by simp)
  · rw [if_neg hc] at h
    have hr : r = pyStripWs (fixAddrCore s) := (Option.some.inj h).symm
    rw [hr]
    exact pyStrip_idem wsChars (fixAddrCore s)

theorem fix_addr_empty_core {s : Str} (h : fixAddrCore s = []) : fix_addr (some s) = none := by
  simp only [fix_addr]
  rw [if_pos h]

-- ===========================================================================
-- Order lemmas for Python string comparison

theorem pyStrLt_cons (x y : Char) (xs ys : Str) :
    pyStrLt (x :: xs) (y :: ys) =
      if x < y then true else if y < x then false else pyStrLt xs ys := rfl

theorem pyStrLt_irrefl (s : Str) : pyStrLt s s = false := by
  induction s with
  | nil => rfl
  | cons a r ih => simp [pyStrLt, lt_self_iff_false, ih]

theorem pyStrLt_trans : ∀ (a b c : Str), pyStrLt a b = true → pyStrLt b c = true →
    pyStrLt a c = true
  | [], b, c, hab, hbc => by
    cases c with
    | nil =>
      cases b with
      | nil => exact hab
      | cons y ys => exact absurd hbc (by simp [pyStrLt])
    | cons z zs => rfl
  | x :: xs, b, c, hab, hbc => by
    cases b with
    | nil => exact absurd hab (by simp [pyStrLt])
    | cons y ys =>
      cases c with
      | nil => exact absurd hbc (by simp [pyStrLt])
      | cons z zs =>
        rw [pyStrLt_cons] at hab hbc ⊢
        rcases lt_trichotomy x y with h1 | h1 | h1
        · rcases lt_trichotomy y z with h2 | h2 | h2
          · rw [if_pos (lt_trans h1 h2)]
          · subst h2
            rw [if_pos h1]
          · rw [if_neg (lt_asymm h2), if_pos h2] at hbc
            exact Bool.noConfusion hbc
        · subst h1
          rw [if_neg (lt_irrefl x), if_neg (lt_irrefl x)] at hab
          rcases lt_trichotomy x z with h2 | h2 | h2
          · rw [if_pos h2]
          · subst h2
            rw [if_neg (lt_irrefl x), if_neg (lt_irrefl x)] at hbc ⊢
            exact pyStrLt_trans xs ys zs hab hbc
          · rw [if_neg (lt_asymm h2), if_pos h2] at hbc
            exact Bool.noConfusion hbc
        · rw [if_neg (lt_asymm h1), if_pos h1] at hab
          exact Bool.noConfusion hab

theorem pyStrLt_antisymm : ∀ (a b : Str), pyStrLt a b = false → pyStrLt b a = false → a = b
  | [], [], _, _ => rfl
  | [], _ :: _, hab, _ => absurd hab (by simp [pyStrLt])
  | _ :: _, [], _, hba => absurd hba (by simp [pyStrLt])
  | x :: xs, y :: ys, hab, hba => by
    rw [pyStrLt_cons] at hab hba
    rcases lt_trichotomy x y with h1 | h1 | h1
    · rw [if_pos h1] at hab
      exact Bool.noConfusion hab
    · subst h1
      rw [if_neg (lt_irrefl x), if_neg (lt_irrefl x)] at hab hba
      rw [pyStrLt_antisymm xs ys hab hba]
    · rw [if_pos h1] at hba
      exact Bool.noConfusion hba

theorem pyStrLt_asymm {a b : Str} (h : pyStrLt a b = true) : pyStrLt b a = false := by
  cases hba : pyStrLt b a
  · rfl
  · have := pyStrLt_trans a b a h hba
    rw [pyStrLt_irrefl] at this
    exact Bool.noConfusion this

/-- Transitivity of "not below": if b is not below a and c is not below b,
then c is not below a. -/
theorem pyStrLt_notLt_trans (a b c : Str) (hba : pyStrLt b a = false)
    (hcb : pyStrLt c b = false) : pyStrLt c a = false := by
  cases hca : pyStrLt c a
  · rfl
  · exfalso
    cases hbc : pyStrLt b c
    · have hbeq : b = c := pyStrLt_antisymm b c hbc hcb
      subst hbeq
      rw [hca] at hba
      exact Bool.noConfusion hba
    · have := pyStrLt_trans b c a hbc hca
      rw [this] at hba
      exact Bool.noConfusion hba

-- ===========================================================================
-- The folder fold

theorem foldMinFrom_cons (acc d : Str) (l : List Str) :
    foldMinFrom acc (d :: l) = foldMinFrom (if pyStrLt d acc then d else acc) l := rfl

theorem foldMaxFrom_cons (acc d : Str) (l : List Str) :
    foldMaxFrom acc (d :: l) = foldMaxFrom (if pyStrLt acc d then d else acc) l := rfl

theorem foldMinFrom_mem (acc : Str) (l : List Str) :
    foldMinFrom acc l = acc ∨ foldMinFrom acc l ∈ l := by
  induction l generalizing acc with
  | nil => exact Or.inl rfl
  | cons d r ih =>
    rw [foldMinFrom_cons]
    by_cases hd : pyStrLt d acc = true
    · rw [if_pos hd]
      rcases ih d with h | h
      · exact Or.inr (by rw [h]; exact List.mem_cons_self d r)
      · exact Or.inr (List.mem_cons_of_mem d h)
    · rw [if_neg hd]
      rcases ih acc with h | h
      · exact Or.inl h
      · exact Or.inr (List.mem_cons_of_mem d h)

theorem foldMinFrom_le (acc : Str) (l : List Str) :
    pyStrLt acc (foldMinFrom acc l) = false ∧
      ∀ d ∈ l, pyStrLt d (foldMinFrom acc l) = false := by
  induction l generalizing acc with
  | nil => exact ⟨pyStrLt_irrefl acc, fun d hd => absurd hd (List.not_mem_nil d)⟩
  | cons d r ih =>
    rw [foldMinFrom_cons]
    by_cases hd : pyStrLt d acc = true
    · rw [if_pos hd]
      obtain ⟨ih1, ih2⟩ := ih d
      refine ⟨pyStrLt_notLt_trans (foldMinFrom d r) d acc ih1 (pyStrLt_asymm hd),
        fun x hx => ?_⟩
      rcases List.mem_cons.mp hx with rfl | hx'
      · exact ih1
      · exact ih2 x hx'
    · rw [if_neg hd]
      obtain ⟨ih1, ih2⟩ := ih acc
      have hd' : pyStrLt d acc = false := by
        cases hdd : pyStrLt d acc
        · rfl
        · exact absurd hdd hd
      refine ⟨ih1, fun x hx => ?_⟩
      rcases List.mem_cons.mp hx with rfl | hx'
      · exact pyStrLt_notLt_trans (foldMinFrom acc r) acc x ih1 hd'
      · exact ih2 x hx'

theorem foldMaxFrom_mem (acc : Str) (l : List Str) :
    foldMaxFrom acc l = acc ∨ foldMaxFrom acc l ∈ l := by
  induction l generalizing acc with
  | nil => exact Or.inl rfl
  | cons d r ih =>
    rw [foldMaxFrom_cons]
    by_cases hd : pyStrLt acc d = true
    · rw [if_pos hd]
      rcases ih d with h | h
      · exact Or.inr (by rw [h]; exact List.mem_cons_self d r)
      · exact Or.inr (List.mem_cons_of_mem d h)
    · rw [if_neg hd]
      rcases ih acc with h | h
      · exact Or.inl h
      · exact Or.inr (List.mem_cons_of_mem d h)

theorem foldMaxFrom_ge (acc : Str) (l : List Str) :
    pyStrLt (foldMaxFrom acc l) acc = false ∧
      ∀ d ∈ l, pyStrLt (foldMaxFrom acc l) d = false := by
  induction l generalizing acc with
  | nil => exact ⟨pyStrLt_irrefl acc, fun d hd => absurd hd (List.not_mem_nil d)⟩
  | cons d r ih =>
    rw [foldMaxFrom_cons]
    by_cases hd : pyStrLt acc d = true
    · rw [if_pos hd]
      obtain ⟨ih1, ih2⟩ := ih d
      refine ⟨pyStrLt_notLt_trans acc d (foldMaxFrom d r) (pyStrLt_asymm hd) ih1,
        fun x hx => ?_⟩
      rcases List.mem_cons.mp hx with rfl | hx'
      · exact ih1
      · exact ih2 x hx'
    · rw [if_neg hd]
      obtain ⟨ih1, ih2⟩ := ih acc
      have hd' : pyStrLt acc d = false := by
        cases hdd : pyStrLt acc d
        · rfl
        · exact absurd hdd hd
      refine ⟨ih1, fun x hx => ?_⟩
      rcases List.mem_cons.mp hx with rfl | hx'
      · exact pyStrLt_notLt_trans x acc (foldMaxFrom acc r) hd' ih1
      · exact ih2 x hx'

theorem foldl_folderStep_spec : ∀ (dates : List (Option Str)) (st : FolderState),
    dates.foldl folderStep st =
      ⟨st.msg_count + dates.length, foldMinFrom st.first_date (dates.filterMap id),
       foldMaxFrom st.final_date (dates.filterMap id)⟩
  | [], st => by simp [foldMinFrom, foldMaxFrom]
  | none :: rest, st => by
    rw [List.foldl_cons, foldl_folderStep_spec rest (folderStep st none)]
    simp only [folderStep, List.filterMap_cons_none, List.length_cons]
    exact congrArg (fun n => FolderState.mk n _ _) (by omega)
  | some d :: rest, st => by
    rw [List.foldl_cons, foldl_folderStep_spec rest (folderStep st (some d))]
    simp only [folderStep, List.filterMap_cons_some, List.length_cons, foldMinFrom,
      foldMaxFrom, List.foldl_cons]
    exact congrArg (fun n => FolderState.mk n _ _) (by omega)

-- ===========================================================================
-- parse_hdr_from

theorem scanGroups_ok {gs : List PyGroup} (h : ∀ g ∈ gs, g.addresses.length ≤ 1) :
    ∃ v, scanGroups gs = .ok v := by
  induction gs with
  | nil => exact ⟨(none, none), rfl⟩
  | cons g rest ih =>
    have hg := h g (List.mem_cons_self g rest)
    have hrest : ∀ g' ∈ rest, g'.addresses.length ≤ 1 :=
      fun g' hm => h g' (List.mem_cons_of_mem g hm)
    cases hga : g.addresses with
    | nil => simpa [scanGroups, hga] using ih hrest
    | cons a as =>
      cases as with
      | nil =>
        by_cases hd : pyContains a.domain (str ".") = true
        · exact ⟨(some a.display_name, some a.addr_spec), by simp [scanGroups, hga, hd]⟩
        · have hd' : pyContains a.domain (str ".") = false := by
            cases hdd : pyContains a.domain (str ".")
            · rfl
            · exact absurd hdd hd
          simpa [scanGroups, hga, hd'] using ih hrest
      | cons b bs =>
        rw [hga] at hg
        exact absurd hg (by simp)

theorem digitChar_isDigit (n : Nat) : (digitChar n).isDigit = true := by
  unfold digitChar
  split <;> decide

-- ===========================================================================
-- Claim theorems

/-- C1, counterexample: the normalization pair (fix_name, fix_addr) is not
idempotent as claimed: on the display name "Bob  via Datatracker" the first
application strips the " via Datatracker" suffix and leaves a trailing
space, which the second application then strips. -/
theorem c1_normalizer_idempotent_cex :
    fix_name (some (str "Bob  via Datatracker")) = some (str "Bob ") ∧
    fix_name (fix_name (some (str "Bob  via Datatracker"))) = some (str "Bob") ∧
    fix_name (fix_name (some (str "Bob  via Datatracker"))) ≠
      fix_name (some (str "Bob  via Datatracker")) := by
  refine ⟨by decide, by decide, by decide⟩

/-- C1 (amended): applying (fix_name, fix_addr) to its own output is a no-op
for every pair whose normalized output is well-formed: the name has no
strippable surrounding quote/apostrophe/space and no " via Datatracker"
suffix; the address is lower-case, nonempty, whitespace-trimmed, has no
leading or trailing quote/apostrophe/angle character, contains neither
" at " nor " on behalf of ", and does not end in "@dmarc.ietf.org". -/
theorem c1_normalizer_idempotent (n a : Option Str)
    (hn : nameNormalOK (fix_name n) = true) (ha : addrNormalOK (fix_addr a) = true) :
    fix_name (fix_name n) = fix_name n ∧ fix_addr (fix_addr a) = fix_addr a := by
  constructor
  · cases hfn : fix_name n with
    | none => rfl
    | some s =>
      rw [hfn] at hn
      simp only [nameNormalOK, Bool.and_eq_true, beq_iff_eq, Bool.not_eq_true'] at hn
      obtain ⟨⟨h1, h2⟩, h3⟩ := hn
      refine fix_name_fixpoint h1 h2 fun he => ?_
      subst he
      exact absurd h3 (by decide)
  · cases hfa : fix_addr a with
    | none => rfl
    | some s =>
      rw [hfa] at ha
      simp only [addrNormalOK, Bool.and_eq_true, beq_iff_eq, Bool.not_eq_true'] at ha
      obtain ⟨⟨⟨⟨⟨⟨⟨hlow, hdm⟩, hlj⟩, htj⟩, hat⟩, hbe⟩, hws⟩, hne⟩ := ha
      refine fix_addr_fixpoint hlow hdm hlj htj hat hbe hws fun he => ?_
      subst he
      exact absurd hne (by decide)

/-- C1, witness: the amended idempotence at the concrete normalized pair
("Jane Doe", "jane@example.org"). -/
theorem c1_normalizer_idempotent_witness :
    fix_name (fix_name (some (str "Jane Doe"))) = fix_name (some (str "Jane Doe")) ∧
    fix_addr (fix_addr (some (str "jane@example.org"))) =
      fix_addr (some (str "jane@example.org")) :=
  c1_normalizer_idempotent (some (str "Jane Doe")) (some (str "jane@example.org"))
    (by decide) (by decide)

/-- C3: for every address of the shape local=40domain@dmarc.ietf.org over
plain characters, fix_addr strips the "@dmarc.ietf.org" suffix and decodes
the "=40" escape back into "@"; an address that merely ends in the suffix
has the suffix stripped; and on the literal
"arnaud.taddei=40broadcom.com@dmarc.ietf.org" the result is
"arnaud.taddei@broadcom.com". -/
theorem c3_dmarc_rewrite :
    (∀ l m : Str, l.all plainAddrChar = true → m.all plainAddrChar = true →
        fix_addr (some (l ++ eq40 ++ m ++ dmarcDomain)) = some (l ++ '@' :: m)) ∧
    (∀ l : Str, l.all plainAddrChar = true → l ≠ [] →
        fix_addr (some (l ++ dmarcDomain)) = some l) ∧
    fix_addr (some (str "arnaud.taddei=40broadcom.com@dmarc.ietf.org")) =
      some (str "arnaud.taddei@broadcom.com") :=
  ⟨fun _ _ hl hm => fixAddr_on_dmarc hl hm,
   fun _ hl hne => fixAddr_on_dmarc_plain hl hne,
   by decide⟩

/-- C3, witness: the first conjunct applied at local part "arnaud.taddei"
and domain "broadcom.com" reproduces the spec's literal example. -/
theorem c3_dmarc_rewrite_witness :
    fix_addr (some (str "arnaud.taddei" ++ eq40 ++ str "broadcom.com" ++ dmarcDomain)) =
      some (str "arnaud.taddei" ++ '@' :: str "broadcom.com") :=
  c3_dmarc_rewrite.1 (str "arnaud.taddei") (str "broadcom.com") (by decide) (by decide)

/-- C7, counterexample: the " at " rewrite is not guarded by the presence of
a real "@": on "x at y@z.com", which already contains "@", fix_addr still
replaces " at ", producing "x@y@z.com", so the " at " substring is not left
unchanged. -/
theorem c7_at_obfuscation_cex :
    pyContains (str "x at y@z.com") atSign = true ∧
    fix_addr (some (str "x at y@z.com")) = some (str "x@y@z.com") ∧
    pyContains (str "x@y@z.com") atObfuscation = false := by
  refine ⟨by decide, by decide, by decide⟩

/-- C7 (amended): for every address of the shape "local at domain" over
plain characters (hence with no real "@"), fix_addr replaces the " at "
obfuscation by "@"; the replacement is applied unconditionally, also when a
real "@" is already present, as on "a at b@c.org". -/
theorem c7_at_obfuscation :
    (∀ l m : Str, l.all plainAddrChar = true → m.all plainAddrChar = true →
        fix_addr (some (l ++ atObfuscation ++ m)) = some (l ++ '@' :: m)) ∧
    fix_addr (some (str "a at b@c.org")) = some (str "a@b@c.org") :=
  ⟨fun _ _ hl hm => fixAddr_on_atObfuscation hl hm, by decide⟩

/-- C7, witness: the first conjunct applied at "lear" and "cisco.com"
reproduces the spec's literal example "lear at cisco.com" to
"lear@cisco.com". -/
theorem c7_at_obfuscation_witness :
    fix_addr (some (str "lear" ++ atObfuscation ++ str "cisco.com")) =
      some (str "lear" ++ '@' :: str "cisco.com") :=
  c7_at_obfuscation.1 (str "lear") (str "cisco.com") (by decide) (by decide)

/-- C8: the ".RemoveThisWord" strip is dead code: fix_addr lower-cases the
address first, so the case-sensitive endswith(".RemoveThisWord") test never
succeeds and the (lower-cased) suffix is retained instead of stripped. -/
theorem c8_removethisword_dead :
    fix_addr (some (str "user@example.com.RemoveThisWord")) =
      some (str "user@example.com.removethisword") ∧
    pyEndsWith (pyLower (str "user@example.com.RemoveThisWord")) removeThisWord = false := by
  refine ⟨by decide, by decide⟩

/-- C10, counterexample: fix_addr can return the empty string: the final
whitespace trim happens after the empty test, so the whitespace-only
address " " yields Some "" rather than absent. -/
theorem c10_empty_folding_cex : fix_addr (some (str " ")) = some [] := by decide

/-- C10 (amended): an absent address stays absent; an address that is empty
after normalization but before the final trim is folded to absent; and
every non-absent result is whitespace-trimmed (the final trim can itself
produce the empty string, which is then returned, not folded). -/
theorem c10_empty_folding :
    fix_addr none = none ∧
    (∀ s : Str, fixAddrCore s = [] → fix_addr (some s) = none) ∧
    (∀ s r : Str, fix_addr (some s) = some r → pyStripWs r = r) :=
  ⟨rfl, fun _ h => fix_addr_empty_core h, fun _ _ h => fix_addr_result_stripped h⟩

/-- C10, witness: a quote-only address is folded to absent (its core
normalizes to the empty string), and the result for " a@b " is the trimmed
"a@b". -/
theorem c10_empty_folding_witness :
    fix_addr (some [quoteCh]) = none ∧ pyStripWs (str "a@b") = str "a@b" :=
  ⟨c10_empty_folding.2.1 [quoteCh] (by decide),
   c10_empty_folding.2.2 (str " a@b ") (str "a@b") (by decide)⟩

/-- C2, counterexample: From-header parsing is not total: a From header
holding one group with two addresses (e.g. "g: alice@example.com,
bob@example.org;") makes parse_hdr_from raise a RuntimeError instead of
returning a defined (name, address) result. -/
theorem c2_from_totality_cex :
    parse_hdr_from (some ⟨[⟨[⟨str "Alice", str "alice@example.com", str "example.com"⟩,
        ⟨str "Bob", str "bob@example.org", str "example.org"⟩]⟩]⟩) =
      Except.error (str "Cannot parse From header - multiple addresses in group") ∧
    isOkE (parse_hdr_from (some ⟨[⟨[⟨str "Alice", str "alice@example.com", str "example.com"⟩,
        ⟨str "Bob", str "bob@example.org", str "example.org"⟩]⟩]⟩)) = false := by
  refine ⟨rfl, rfl⟩

/-- C2 (amended): From-header parsing returns a defined (name, address)
result — possibly with both fields absent — for a missing header and for
every header none of whose groups carries more than one address; a
multi-address group reached during the scan of a multi-address header
raises RuntimeError. -/
theorem c2_from_totality :
    parse_hdr_from none = Except.ok (none, none) ∧
    ∀ hv : FromHeaderVal, (∀ g ∈ hv.groups, g.addresses.length ≤ 1) →
      isOkE (parse_hdr_from (some hv)) = true := by
  refine ⟨rfl, fun hv hg => ?_⟩
  cases hga : getaddressesOf hv with
  | nil => simp [parse_hdr_from, hga, isOkE]
  | cons x xs =>
    obtain ⟨n, a⟩ := x
    cases xs with
    | nil => simp [parse_hdr_from, hga, isOkE]
    | cons y ys =>
      obtain ⟨⟨n2, a2⟩, hscan⟩ := scanGroups_ok hg
      simp [parse_hdr_from, hga, hscan, isOkE]

/-- C2, witness: a From header with two single-address groups parses without
a fault. -/
theorem c2_from_totality_witness :
    isOkE (parse_hdr_from (some ⟨[⟨[⟨str "A", str "a@x.example", str "x.example"⟩]⟩,
      ⟨[⟨str "B", str "b@y.example", str "y.example"⟩]⟩]⟩)) = true :=
  c2_from_totality.2 _ (by decide)

/-- C4: date parsing tries, in this order, the standard RFC parse, the
standard parse with the offset field replaced by "+0000", the three legacy
strptime layouts, and the hour/minute repair pass; the first success wins
and is formatted, a total failure yields absent, and every formatted result
has the "YYYY-MM-DD HH:MM:SS" shape. -/
theorem c4_date_chain (pdt strp1 strp2 strp3 : Str → Option PyDateTime)
    (tz : PyDateTime → PyDateTime) (hdr? : Option Str) :
    (parse_hdr_date pdt strp1 strp2 strp3 tz hdr? =
      (match hdr? with
       | none => none
       | some h0 => (firstSome (dateAttempts pdt strp1 strp2 strp3 (pyStripWs h0))).map
           fun t => strftimeYmdHMS (tz t))) ∧
    ∀ t : PyDateTime, isDateShape (strftimeYmdHMS t) = true := by
  constructor
  · cases hdr? with
    | none => rfl
    | some h0 =>
      cases hp1 : pdt (pyStripWs h0) with
      | some t => simp [parse_hdr_date, dateAttempts, firstSome, hp1]
      | none =>
        cases hp2 : pdt (assumeUtcOffset (pyStripWs h0)) with
        | some t => simp [parse_hdr_date, dateAttempts, firstSome, hp1, hp2]
        | none =>
          cases hp3 : strp1 (pyStripWs h0) with
          | some t => simp [parse_hdr_date, dateAttempts, firstSome, hp1, hp2, hp3]
          | none =>
            cases hp4 : strp2 (pyStripWs h0) with
            | some t => simp [parse_hdr_date, dateAttempts, firstSome, hp1, hp2, hp3, hp4]
            | none =>
              cases hp5 : strp3 (pyStripWs h0) with
              | some t =>
                simp [parse_hdr_date, dateAttempts, firstSome, hp1, hp2, hp3, hp4, hp5]
              | none =>
                cases hp6 : pdt (padHourMin (pyStripWs h0)) with
                | some t =>
                  simp [parse_hdr_date, dateAttempts, firstSome, hp1, hp2, hp3, hp4, hp5, hp6]
                | none =>
                  simp [parse_hdr_date, dateAttempts, firstSome, hp1, hp2, hp3, hp4, hp5, hp6]
  · intro t
    simp [strftimeYmdHMS, pad4, pad2, isDateShape, digitChar_isDigit]

/-- C4, witness: with every collaborator failing, an unparseable header
yields absent; and a concrete datetime formats to the canonical shape. -/
theorem c4_date_chain_witness :
    parse_hdr_date (fun _ => none) (fun _ => none) (fun _ => none) (fun _ => none)
      (fun t => t) (some (str "not a date")) = none ∧
    isDateShape (strftimeYmdHMS ⟨2020, 6, 15, 12, 30, 45, by decide, by decide, by decide,
      by decide, by decide, by decide⟩) = true := by
  have h := c4_date_chain (fun _ => none) (fun _ => none) (fun _ => none) (fun _ => none)
    (fun t => t) (some (str "not a date"))
  exact ⟨by decide, h.2 _⟩

/-- C5, counterexample: the repair pattern table of header_reader runs only
for To and Cc headers, so a From header with the value "IETF-Announce: ;,
tis.com@CNRI.Reston.VA.US, tis.com@magellan.tis.com" is returned unchanged,
not repaired to "ietf-announce@ietf.org". -/
theorem c5_announce_repair_cex :
    header_reader
        [str "From: IETF-Announce: ;, tis.com@CNRI.Reston.VA.US, tis.com@magellan.tis.com"] =
      some (str "From",
        str "IETF-Announce: ;, tis.com@CNRI.Reston.VA.US, tis.com@magellan.tis.com") ∧
    str "IETF-Announce: ;, tis.com@CNRI.Reston.VA.US, tis.com@magellan.tis.com" ≠
      str "ietf-announce@ietf.org" := by
  refine ⟨by decide, by decide⟩

/-- C5 (amended): a To (or Cc) header whose value is "IETF-Announce: ;,
tis.com@CNRI.Reston.VA.US, tis.com@magellan.tis.com" is repaired by the
header_reader pattern table to "ietf-announce@ietf.org", and the repaired
value parses to the single pair with empty name and that address. -/
theorem c5_announce_repair :
    header_reader
        [str "To: IETF-Announce: ;, tis.com@CNRI.Reston.VA.US, tis.com@magellan.tis.com"] =
      some (str "To", str "ietf-announce@ietf.org") ∧
    parse_hdr_to_cc (Except.ok (some (str "ietf-announce@ietf.org"))) getaddressesModel =
      [([], str "ietf-announce@ietf.org")] := by
  refine ⟨by decide, by decide⟩

/-- C6: To/Cc parsing returns the empty sequence when the header extraction
faults, when the header is missing, and when the address-list grammar parse
faults; it returns the parsed pairs otherwise, and never propagates a
fault. -/
theorem c6_to_cc_failure_policy (e : Str) (ga : Str → Except Str (List (Str × Str)))
    (h : Str) (pairs : List (Str × Str)) :
    parse_hdr_to_cc (Except.error e) ga = [] ∧
    parse_hdr_to_cc (Except.ok none) ga = [] ∧
    (ga h = Except.error e → parse_hdr_to_cc (Except.ok (some h)) ga = []) ∧
    (ga h = Except.ok pairs → parse_hdr_to_cc (Except.ok (some h)) ga = pairs) := by
  refine ⟨rfl, rfl, fun hga => ?_, fun hga => ?_⟩ <;> simp [parse_hdr_to_cc, hga]

/-- C6, witness: a well-formed single-address To header parses to its
pair. -/
theorem c6_to_cc_failure_policy_witness :
    parse_hdr_to_cc (Except.ok (some (str "a@b.example"))) getaddressesModel =
      [([], str "a@b.example")] :=
  (c6_to_cc_failure_policy (str "x") getaddressesModel (str "a@b.example")
    [([], str "a@b.example")]).2.2.2 (by rfl)

/-- C9, counterexample: first_date is not the lexicographic minimum of the
non-absent dates: a folder whose only message is dated
"2038-06-01 00:00:00" (beyond the far-future sentinel) keeps the sentinel
"2038-01-19 03:14:07" as first_date, which differs from the true minimum. -/
theorem c9_folder_summary_cex :
    foldFolder [some (str "2038-06-01 00:00:00")] =
      ⟨1, sentinelFirst, str "2038-06-01 00:00:00"⟩ ∧
    sentinelFirst ≠ str "2038-06-01 00:00:00" := by
  refine ⟨by decide, by decide⟩

/-- C9 (amended): after folding a folder, msg_count is the number of
messages; first_date is the fold-minimum of the far-future sentinel
together with the non-absent dates, and final_date the fold-maximum of the
far-past sentinel together with them (so both stay the sentinels for a
folder with zero dated messages, and no min/max of an empty set is taken);
first_date is the sentinel or one of the dates and no date is below it, and
final_date is the sentinel or one of the dates and none is above it. -/
theorem c9_folder_summary (dates : List (Option Str)) :
    (foldFolder dates).msg_count = dates.length ∧
    (foldFolder dates).first_date = foldMinFrom sentinelFirst (dates.filterMap id) ∧
    (foldFolder dates).final_date = foldMaxFrom sentinelFinal (dates.filterMap id) ∧
    (dates.filterMap id = [] →
      foldFolder dates = ⟨dates.length, sentinelFirst, sentinelFinal⟩) ∧
    ((foldFolder dates).first_date = sentinelFirst ∨
      (foldFolder dates).first_date ∈ dates.filterMap id) ∧
    (∀ d ∈ dates.filterMap id, pyStrLt d (foldFolder dates).first_date = false) ∧
    ((foldFolder dates).final_date = sentinelFinal ∨
      (foldFolder dates).final_date ∈ dates.filterMap id) ∧
    (∀ d ∈ dates.filterMap id, pyStrLt (foldFolder dates).final_date d = false) := by
  have hspec : foldFolder dates =
      ⟨dates.length, foldMinFrom sentinelFirst (dates.filterMap id),
       foldMaxFrom sentinelFinal (dates.filterMap id)⟩ := by
    unfold foldFolder
    rw [foldl_folderStep_spec dates initFolderState]
    simp [initFolderState]
  refine ⟨?_, ?_, ?_, ?_, ?_, ?_, ?_, ?_⟩
  · rw [hspec]
  · rw [hspec]
  · rw [hspec]
  · intro hnil
    rw [hspec, hnil]
    rfl
  · rw [hspec]
    exact foldMinFrom_mem _ _
  · rw [hspec]
    exact (foldMinFrom_le _ _).2
  · rw [hspec]
    exact foldMaxFrom_mem _ _
  · rw [hspec]
    exact (foldMaxFrom_ge _ _).2

/-- C9, witness: a folder with two undated messages keeps the sentinel
range, and a dated message is never below the computed first_date. -/
theorem c9_folder_summary_witness :
    foldFolder [none, none] = ⟨2, sentinelFirst, sentinelFinal⟩ ∧
    pyStrLt (str "1999-01-01 00:00:00")
      (foldFolder [some (str "1999-01-01 00:00:00")]).first_date = false :=
  ⟨(c9_folder_summary [none, none]).2.2.2.1 (by decide),
   (c9_folder_summary [some (str "1999-01-01 00:00:00")]).2.2.2.2.2.1
     (str "1999-01-01 00:00:00") (by decide)⟩

end IetfMa
